import Mathlib

/-!
# shiftjis2utf8: a shallow embedding of `main.go`

The conversion pipeline of `main.go` (history store, tree walker, encoding
detector, conversion engine, orchestrator) as Lean functions over an explicit
model of the disk, followed by the properties of the specification.

Library routines the program calls (`unicode/utf8`, `bufio.Scanner`,
`path/filepath`, `golang.org/x/text/encoding/japanese`) are transcribed next to
the functions that call them; data of those libraries that cannot be
reproduced here (the JIS X 0208 table, the working directory) are fields of
`Sys`.
-/

set_option autoImplicit false

namespace ShiftJIS2UTF8

/-- A byte string (`[]byte`); every element stands for a value in `0..255`. -/
abbrev Bytes := List Nat

/-- A file-system path (`string`). -/
abbrev Path := String

/-! ## `unicode/utf8` -/

/-- The constant `utf8.RuneSelf`. -/
def runeSelf : Nat := 0x80

/-- The constant `utf8.RuneError`. -/
def runeError : Nat := 0xFFFD

/-- The constant `locb` of `unicode/utf8`: lowest continuation byte. -/
def locb : Nat := 0x80

/-- The constant `hicb` of `unicode/utf8`: highest continuation byte. -/
def hicb : Nat := 0xBF

/-- The constant `xx` of `unicode/utf8`: the entry of an illegal starter byte. -/
def xx : Nat := 0xF1

/-- The table `utf8.first`: information about the first byte of a sequence;
the low three bits are the size, the high four bits index `acceptRanges`. -/
def first (b : Nat) : Nat :=
  if b < 0x80 then 0xF0             -- 0x00-0x7F: as
  else if b < 0xC2 then xx          -- 0x80-0xC1: xx
  else if b < 0xE0 then 0x02        -- 0xC2-0xDF: s1
  else if b = 0xE0 then 0x13        -- 0xE0: s2
  else if b < 0xED then 0x03        -- 0xE1-0xEC: s3
  else if b = 0xED then 0x23        -- 0xED: s4
  else if b < 0xF0 then 0x03        -- 0xEE-0xEF: s3
  else if b = 0xF0 then 0x34        -- 0xF0: s5
  else if b < 0xF4 then 0x04        -- 0xF1-0xF3: s6
  else if b = 0xF4 then 0x44        -- 0xF4: s7
  else xx                           -- 0xF5-0xFF: xx

/-- The table `utf8.acceptRanges`: the range `(lo, hi)` of valid values for
the second byte of a sequence. -/
def acceptRanges (i : Nat) : Nat × Nat :=
  if i = 0 then (locb, hicb)
  else if i = 1 then (0xA0, hicb)
  else if i = 2 then (locb, 0x9F)
  else if i = 3 then (0x90, hicb)
  else if i = 4 then (locb, 0x8F)
  else (0, 0)

/-- The function `utf8.Valid`: the main loop of the library routine, with the
remaining slice `p[i:]` as the argument; `first pi % 8` is `size` and
`acceptRanges (first pi / 16)` is `accept`. A sequence cut short by the end of
the slice makes the routine return `false`. The 8-byte ASCII fast path only
skips bytes the main loop would skip one at a time. -/
def utf8Valid : Bytes → Bool
  | [] => true
  | pi :: rest =>
    if pi < runeSelf then utf8Valid rest
    else if first pi = xx then false             -- illegal starter byte
    else
      match rest with
      | [] => false                              -- short
      | c1 :: r1 =>
        if c1 < (acceptRanges (first pi / 16)).1 || (acceptRanges (first pi / 16)).2 < c1 then
          false
        else if first pi % 8 = 2 then utf8Valid r1
        else
          match r1 with
          | [] => false
          | c2 :: r2 =>
            if c2 < locb || hicb < c2 then false
            else if first pi % 8 = 3 then utf8Valid r2
            else
              match r2 with
              | [] => false
              | c3 :: r3 =>
                if c3 < locb || hicb < c3 then false
                else utf8Valid r3

/-- A continuation byte: a byte in `locb..hicb`. -/
def IsCont (c : Nat) : Prop := locb ≤ c ∧ c ≤ hicb

/-- The function `utf8.EncodeRune`, returning the bytes it stores. The byte
`t | byte(r>>k)&maskx` is written `t + (r / 2^k) % 64`: the two operands share
no bit. -/
def encodeRune (r : Nat) : Bytes :=
  if r ≤ 0x7F then [r]
  else if r ≤ 0x7FF then [0xC0 + r / 64, 0x80 + r % 64]
  else if 0x10FFFF < r ∨ (0xD800 ≤ r ∧ r ≤ 0xDFFF) then
    [0xE0 + runeError / 4096, 0x80 + (runeError / 64) % 64, 0x80 + runeError % 64]
  else if r ≤ 0xFFFF then [0xE0 + r / 4096, 0x80 + (r / 64) % 64, 0x80 + r % 64]
  else [0xF0 + r / 262144, 0x80 + (r / 4096) % 64, 0x80 + (r / 64) % 64, 0x80 + r % 64]

/-! ## `golang.org/x/text/encoding/japanese`: the Shift-JIS decoder -/

/-- The rune of a double-byte character: the lookup
`jis0208Decode[c0*94 + c1]` of the decoder, `RuneError` when the index is
outside the table or the entry is `0`. -/
def jis0208Rune (jis0208Decode : List Nat) (c0 c1 : Nat) : Nat :=
  match jis0208Decode.get? (c0 * 94 + c1) with
  | none => runeError
  | some r => if r = 0 then runeError else r

/-- One iteration of the loop of `shiftJISDecoder.Transform` at end of input
(`atEOF`): for the lead byte `c0` and the bytes `src` after it, the rune `r`
and the number `size` of source bytes consumed. A byte sequence that is not
Shift-JIS yields `RuneError`; no branch reports an error. -/
def shiftJISStep (jis0208Decode : List Nat) (c0 : Nat) (src : Bytes) : Nat × Nat :=
  if c0 < runeSelf then (c0, 1)
  else if 0xA1 ≤ c0 ∧ c0 < 0xE0 then (c0 + (0xFF61 - 0xA1), 1)
  else if (0x81 ≤ c0 ∧ c0 < 0xA0) ∨ (0xE0 ≤ c0 ∧ c0 < 0xFD) then
    let c0a := 2 * (if c0 ≤ 0x9F then c0 - 0x70 else c0 - 0xB0) - 0x21
    match src with
    | [] => (runeError, 1)
    | c1 :: _ =>
      if c1 < 0x40 then (runeError, 1)
      else if c1 < 0x7F then (jis0208Rune jis0208Decode (c0a - 1) (c1 - 0x40), 2)
      else if c1 = 0x7F then (runeError, 1)
      else if c1 < 0x9F then (jis0208Rune jis0208Decode (c0a - 1) (c1 - 0x41), 2)
      else if c1 < 0xFD then (jis0208Rune jis0208Decode c0a (c1 - 0x9F), 2)
      else (runeError, 2)
  else if c0 = 0x80 then (0x80, 1)
  else (runeError, 1)

/-- The method `shiftJISDecoder.Transform` run over a whole input, which is
what `io.ReadAll(transform.NewReader(file, decoder))` yields: each iteration
appends `EncodeRune(r)` and advances by `size`. It has no failing outcome. -/
def shiftJISDecode (jis0208Decode : List Nat) : Bytes → Bytes
  | [] => []
  | c0 :: src =>
    encodeRune (shiftJISStep jis0208Decode c0 src).1 ++
      (if (shiftJISStep jis0208Decode c0 src).2 = 1 then shiftJISDecode jis0208Decode src
       else
        match src with
        | [] => []
        | _ :: rest => shiftJISDecode jis0208Decode rest)

/-! ## The platform and the disk -/

/-- Identity of a file-system object (what a path resolves to once the working
directory and links are followed). -/
abbrev FileId := String

/-- A file as the system calls of the program see it. -/
structure File where
  /-- Bytes of the file. -/
  content : Bytes
  /-- Whether `os.Open` succeeds. -/
  canOpen : Bool
  /-- Whether reading the opened file succeeds (`false`: an I/O error, or the
  object is a directory). -/
  canRead : Bool
  /-- Outcome of `os.WriteFile` on the file: `none` when it succeeds, `some left`
  when it fails and leaves the bytes `left` behind. -/
  writeFails : Option Bytes

/-- The disk: the object behind each identity, `none` where nothing exists. -/
abbrev Disk := FileId → Option File

/-- A directory tree as `os.Lstat` and the directory reads of `filepath.Walk`
report it. -/
inductive Tree where
  /-- An entry that is not a directory. -/
  | file
  /-- A directory: whether its names can be read, and its entries by name, in
  the lexical order `filepath.Walk` visits them. -/
  | dir (readable : Bool) (entries : List (String × Tree))
  /-- An entry whose `Lstat` fails. -/
  | broken

/-- What the operating system and the libraries answer, and the program does
not change. -/
structure Sys where
  /-- The function `filepath.Abs`, its error dropped as `processFile` drops it. -/
  abs : Path → Path
  /-- The object a path names when handed to `os.Stat`, `os.Open`, `os.WriteFile`. -/
  resolve : Path → FileId
  /-- The table `jis0208Decode` of `golang.org/x/text/encoding/japanese`. -/
  jis0208Decode : List Nat
  /-- The function `filepath.Match(pattern, name)`, its error dropped. -/
  fileMatch : String → String → Bool
  /-- The function `filepath.Glob`; `none` is `ErrBadPattern`. It reads directory
  entries only, which no operation of the program creates or removes. -/
  glob : String → Option (List Path)
  /-- The tree `filepath.Walk` finds at a path, `none` when `os.Lstat` fails
  there. -/
  treeAt : Path → Option Tree
  /-- The function `os.UserHomeDir`; `none` is its error. -/
  userHomeDir : Option Path
  /-- The order in which a `range` over a map visits the keys: some
  arrangement of them. -/
  rangeOrder : (keys : List Path) → { visit : List Path // visit.Perm keys }

/-- Errors of the file operations. -/
inductive IOError where
  | openFailed
  | readFailed
  | decodeFailed
  | writeFailed
  | createFailed
  deriving DecidableEq, Repr

/-- Replace the object `id` of the disk. -/
def Disk.set (disk : Disk) (id : FileId) (f : File) : Disk :=
  fun j => if j = id then some f else disk j

/-- The bytes of the file a path names, `none` where nothing exists. -/
def Disk.bytes (sys : Sys) (disk : Disk) (filePath : Path) : Option Bytes :=
  (disk (sys.resolve filePath)).map File.content

/-! ## Encoding detector -/

/-- The function `isFileUTF8`: open the file, read once into a buffer of 4096
bytes, and validate the `n` bytes read. -/
def isFileUTF8 (sys : Sys) (disk : Disk) (filePath : Path) : Except IOError Bool :=
  match disk (sys.resolve filePath) with
  | none => .error .openFailed
  | some f =>
    if !f.canOpen then .error .openFailed
    else if !f.canRead then .error .readFailed
    else .ok (utf8Valid (f.content.take 4096))

/-! ## Conversion engine -/

/-- The function `convertFileToUTF8`: the error it returns (`none` for `nil`)
and the disk afterwards. -/
def convertFileToUTF8 (sys : Sys) (disk : Disk) (filePath : Path) : Option IOError × Disk :=
  match disk (sys.resolve filePath) with
  | none => (some .openFailed, disk)
  | some f =>
    if !f.canOpen then (some .openFailed, disk)
    else if !f.canRead then (some .decodeFailed, disk)
    else
      let utf8Bytes := shiftJISDecode sys.jis0208Decode f.content
      match f.writeFails with
      | some left => (some .writeFailed, disk.set (sys.resolve filePath) { f with content := left })
      | none => (none, disk.set (sys.resolve filePath) { f with content := utf8Bytes })

/-! ## History store -/

/-- The type `ConversionHistory`: `converted` lists the keys of the map (every
stored value is `true`), each key once. -/
structure ConversionHistory where
  converted : List Path
  path : Path

/-- The method `isConverted`. -/
def ConversionHistory.isConverted (h : ConversionHistory) (path : Path) : Bool :=
  decide (path ∈ h.converted)

/-- The assignment `m[key] = true` on a `map[string]bool` given by its keys. -/
def mapInsert (keys : List Path) (key : Path) : List Path :=
  if key ∈ keys then keys else keys ++ [key]

/-- The method `markConverted`: `h.converted[path] = true`. -/
def ConversionHistory.markConverted (h : ConversionHistory) (path : Path) : ConversionHistory :=
  { h with converted := mapInsert h.converted path }

/-- Text of the history file. The scanner splits at the bytes of newline and
carriage return, which are whole characters of UTF-8, so the file is kept as
characters. -/
abbrev Text := List Char

/-- The constant `historyFile`. -/
def historyFile : String := ".local.shiftjis2utf8"

/-- The constant `bufio.MaxScanTokenSize`. -/
def maxScanTokenSize : Nat := 64 * 1024

/-- Number of bytes of a text in the file. -/
def utf8Len (t : Text) : Nat :=
  (t.map (fun c => (encodeRune c.toNat).length)).sum

/-- The function `dropCR` of `bufio`: drop one trailing carriage return. -/
def dropCR (data : Text) : Text :=
  if data.getLast? = some (Char.ofNat 13) then data.dropLast else data

/-- The tokens `scanner.Scan()`/`scanner.Text()` deliver with the default split
function `bufio.ScanLines`; `cur` is the part of the current line already
read. A line that does not fit the buffer of `MaxScanTokenSize` bytes ends the
scan (`ErrTooLong`, which `loadHistory` does not look at); a final line
without newline is delivered when it is not empty. -/
def scanLines : Text → Text → List String
  | [], cur => if cur.isEmpty then [] else [String.mk (dropCR cur)]
  | c :: data, cur =>
    if c = Char.ofNat 10 then String.mk (dropCR cur) :: scanLines data []
    else if maxScanTokenSize ≤ utf8Len (cur ++ [c]) then []
    else scanLines data (cur ++ [c])

/-- The function `loadHistory`; `file` is the content of the file at `path`,
`none` when `os.Open` fails. -/
def loadHistory (path : Path) (file : Option Text) : ConversionHistory :=
  match file with
  | none => { converted := [], path := path }
  | some data =>
    (scanLines data []).foldl (fun history line => history.markConverted line)
      { converted := [], path := path }

/-- The method `save`: the content written to `h.path`, one `Fprintln` per key
in the order of the `range`; `canCreate` tells whether `os.Create` and the
final `Flush` succeed. -/
def ConversionHistory.save (sys : Sys) (h : ConversionHistory) (canCreate : Bool) :
    Except IOError Text :=
  if !canCreate then .error .createFailed
  else .ok (((sys.rangeOrder h.converted).1.map (fun path => path.data ++ [Char.ofNat 10])).flatten)

/-! ## Orchestrator: one file -/

/-- The function `processFile`: its result, the disk and the history afterwards. -/
def processFile (sys : Sys) (filePath : Path) (disk : Disk) (history : ConversionHistory) :
    Bool × Disk × ConversionHistory :=
  let absPath := sys.abs filePath
  match disk (sys.resolve filePath) with
  | none => (false, disk, history)                      -- os.IsNotExist
  | some _ =>
    if history.isConverted absPath then (false, disk, history)
    else
      match isFileUTF8 sys disk filePath with
      | .error _ => (false, disk, history)
      | .ok true => (false, disk, history.markConverted absPath)
      | .ok false =>
        match convertFileToUTF8 sys disk filePath with
        | (some _, disk1) => (false, disk1, history)
        | (none, disk1) => (true, disk1, history.markConverted absPath)

/-! ## Pattern matcher and tree walker -/

/-- The constant `os.PathSeparator`. -/
def pathSeparator : Char := '/'

/-- The function `unicode.IsSpace`. -/
def isSpace (c : Char) : Bool :=
  c.toNat ∈ [0x09, 0x0A, 0x0B, 0x0C, 0x0D, 0x20, 0x85, 0xA0, 0x1680, 0x2028, 0x2029,
    0x202F, 0x205F, 0x3000] || (0x2000 ≤ c.toNat && c.toNat ≤ 0x200A)

/-- The function `strings.TrimSpace`. -/
def trimSpace (s : String) : String :=
  String.mk ((s.data.dropWhile isSpace).reverse.dropWhile isSpace).reverse

/-- The function `strings.Count(s, sep)` for a separator of one character. -/
def stringsCount (s : String) (sep : Char) : Nat :=
  s.data.count sep

/-- The elements of a path: the texts between its separators; `acc` is the
part of the current element already read. -/
def splitElems : List Char → List Char → List (List Char)
  | [], acc => [acc]
  | c :: cs, acc =>
    if c = pathSeparator then acc :: splitElems cs [] else splitElems cs (acc ++ [c])

/-- One element in `filepath.Clean`; `out` holds the elements kept so far, the
last one first. An empty element and `.` are dropped; `..` removes the element
before it, is dropped at the root, and is kept at the start of a relative
path. -/
def cleanStep (rooted : Bool) (out : List (List Char)) (elem : List Char) : List (List Char) :=
  if elem = [] ∨ elem = ['.'] then out
  else if elem = ['.', '.'] then
    match out with
    | [] => if rooted then [] else [elem]
    | top :: rest => if top = ['.', '.'] then elem :: out else rest
  else elem :: out

/-- The function `filepath.Clean`: the shortest path naming the same place by
text alone; `.` for the empty path. -/
def filepathClean (path : String) : String :=
  if path.data.isEmpty then "."
  else
    let rooted := path.data.head? = some pathSeparator
    let out := ((splitElems path.data []).foldl (cleanStep rooted) []).reverse
    let body := String.mk (List.intercalate [pathSeparator] out)
    if rooted then String.singleton pathSeparator ++ body
    else if out.isEmpty then "." else body

/-- The function `filepath.Join(path, name)`: the elements that are not empty,
joined by the separator and cleaned; the empty string when both are empty. -/
def filepathJoin (path name : String) : Path :=
  if path.data.isEmpty then
    if name.data.isEmpty then "" else filepathClean name
  else if name.data.isEmpty then filepathClean path
  else filepathClean (path ++ String.singleton pathSeparator ++ name)

/-- The text after the last separator. -/
def lastElem : List Char → List Char → List Char
  | [], acc => acc
  | c :: cs, acc => if c = pathSeparator then lastElem cs [] else lastElem cs (acc ++ [c])

/-- The function `filepath.Base`: the last element of the path, trailing
separators removed; `.` for the empty path and the separator for a path of
separators only. -/
def filepathBase (path : String) : String :=
  if path.data.isEmpty then "."
  else
    let stripped := (path.data.reverse.dropWhile (fun c => c = pathSeparator)).reverse
    if stripped.isEmpty then String.singleton pathSeparator
    else String.mk (lastElem stripped [])

/-- Remove a prefix from a text, `none` when it is not a prefix. -/
def stripPrefix : List Char → List Char → Option (List Char)
  | [], t => some t
  | _ :: _, [] => none
  | p :: ps, c :: cs => if p = c then stripPrefix ps cs else none

/-- The function `filepath.Rel(basepath, targpath)` for a target at or below
the base, which is where `filepath.Walk(dir, _)` finds the paths it hands to
its callback: both paths are cleaned, the result is `.` when they are equal
and otherwise the part of the target below the base. The empty string stands
for the remaining cases (an error, or a target outside the base), whose result
the caller does not check. -/
def filepathRel (basepath targpath : String) : String :=
  let base := filepathClean basepath
  let targ := filepathClean targpath
  if targ = base then "."
  else if (base.data.head? = some pathSeparator) ≠ (targ.data.head? = some pathSeparator) then ""
  else
    let lead :=
      if base = "." then []
      else if base = String.singleton pathSeparator then [pathSeparator]
      else base.data ++ [pathSeparator]
    match stripPrefix lead targ.data with
    | some rest => String.mk rest
    | none => ""

/-- Return value of the callback of `filepath.Walk`. -/
inductive WalkResult where
  | nil
  | skipDir
  deriving DecidableEq

/-- The callback `findFilesByPattern` passes to `filepath.Walk`: its return
value and the matches it appends. `isDir` is `info.IsDir()`, `err` whether the
callback received an error. -/
def walkFn (sys : Sys) (dir pattern : String) (depth : Int) (path : Path) (isDir err : Bool) :
    WalkResult × List Path :=
  if err then (.nil, [])
  else
    let rel := filepathRel dir path
    if (stringsCount rel pathSeparator : Int) ≥ depth ∧ isDir then (.skipDir, [])
    else if isDir then (.nil, [])
    else if sys.fileMatch pattern (filepathBase path) then (.nil, [path])
    else (.nil, [])

mutual
/-- The function `walk` of `path/filepath` under the callback `walkFn`: the
matches appended while walking the object `t` found at `path`. -/
def walk (sys : Sys) (dir pattern : String) (depth : Int) (path : Path) : Tree → List Path
  | .broken => (walkFn sys dir pattern depth path false true).2
  | .file => (walkFn sys dir pattern depth path false false).2
  | .dir readable entries =>
    if !readable then (walkFn sys dir pattern depth path true true).2
    else if (walkFn sys dir pattern depth path true false).1 = .skipDir then
      (walkFn sys dir pattern depth path true false).2
    else
      (walkFn sys dir pattern depth path true false).2 ++
        walkEntries sys dir pattern depth path entries
/-- The loop of `walk` over the names of a directory. -/
def walkEntries (sys : Sys) (dir pattern : String) (depth : Int) (path : Path) :
    List (String × Tree) → List Path
  | [] => []
  | (name, t) :: rest =>
    walk sys dir pattern depth (filepathJoin path name) t ++
      walkEntries sys dir pattern depth path rest
end

/-- The function `findFilesByPattern`: `filepath.Walk(dir, walkFn)`. -/
def findFilesByPattern (sys : Sys) (dir pattern : String) (depth : Int) : List Path :=
  match sys.treeAt dir with
  | none => (walkFn sys dir pattern depth dir false true).2
  | some t => walk sys dir pattern depth dir t

/-! ## Orchestrator: one run -/

/-- The files and the history file a run works on. -/
structure World where
  disk : Disk
  /-- Content of the history file, `none` when it cannot be opened. -/
  historyFile : Option Text
  /-- Whether the history file can be created and written. -/
  historyWritable : Bool

/-- The variables of the loops of `runFilesMode` and `runDirMode`; `calls`
records each call of `processFile` with its result. -/
structure Loop where
  disk : Disk
  history : ConversionHistory
  convertedCount : Nat
  skippedCount : Nat
  calls : List (Path × Bool)

/-- What a run leaves: the two counts it prints, the world afterwards, and the
calls of `processFile` it made. -/
structure RunResult where
  convertedCount : Nat
  skippedCount : Nat
  world : World
  calls : List (Path × Bool)

/-- The function `getHistory`; `none` is `log.Fatalf` on a missing home
directory. -/
def getHistory (sys : Sys) (w : World) : Option ConversionHistory :=
  match sys.userHomeDir with
  | none => none
  | some homeDir => some (loadHistory (filepathJoin homeDir historyFile) w.historyFile)

/-- The body of the loops over the files: call `processFile` and count. -/
def Loop.step (sys : Sys) (s : Loop) (filePath : Path) : Loop :=
  match processFile sys filePath s.disk s.history with
  | (true, disk, history) =>
    { disk := disk, history := history, convertedCount := s.convertedCount + 1,
      skippedCount := s.skippedCount, calls := s.calls ++ [(filePath, true)] }
  | (false, disk, history) =>
    { disk := disk, history := history, convertedCount := s.convertedCount,
      skippedCount := s.skippedCount + 1, calls := s.calls ++ [(filePath, false)] }

/-- The end of a run: save the history (a failure is only logged) and report. -/
def Loop.finish (sys : Sys) (w : World) (s : Loop) : RunResult :=
  { convertedCount := s.convertedCount
    skippedCount := s.skippedCount
    world :=
      { disk := s.disk
        historyFile :=
          match s.history.save sys w.historyWritable with
          | .ok text => some text
          | .error _ => w.historyFile
        historyWritable := w.historyWritable }
    calls := s.calls }

/-- The matches `runFilesMode` works on for one pattern: the glob expansion,
or the pattern itself when the expansion fails or is empty. -/
def resolveMatches (sys : Sys) (pattern : String) : List Path :=
  match sys.glob pattern with
  | none => [pattern]
  | some filePaths => if filePaths.length = 0 then [pattern] else filePaths

/-- The function `runFilesMode`. -/
def runFilesMode (sys : Sys) (filePatterns : List String) (w : World) : Option RunResult :=
  match getHistory sys w with
  | none => none
  | some history =>
    some (Loop.finish sys w
      (filePatterns.foldl
        (fun s pattern => (resolveMatches sys (trimSpace pattern)).foldl (Loop.step sys) s)
        { disk := w.disk, history := history, convertedCount := 0, skippedCount := 0,
          calls := [] }))

/-- The slice `targetFiles` of `runDirMode`: the matches of every pattern,
appended in order. -/
def targetFiles (sys : Sys) (targetDir : String) (patterns : List String) (depth : Int) :
    List Path :=
  patterns.foldl
    (fun files pattern => files ++ findFilesByPattern sys targetDir (trimSpace pattern) depth) []

/-- The keys of the map `uniqueFiles` of `runDirMode`. -/
def uniqueFiles (files : List Path) : List Path :=
  files.foldl mapInsert []

/-- The function `runDirMode`. -/
def runDirMode (sys : Sys) (targetDir : String) (patterns : List String) (depth : Int)
    (w : World) : Option RunResult :=
  match getHistory sys w with
  | none => none
  | some history =>
    some (Loop.finish sys w
      ((sys.rangeOrder (uniqueFiles (targetFiles sys targetDir patterns depth))).1.foldl
        (Loop.step sys)
        { disk := w.disk, history := history, convertedCount := 0, skippedCount := 0,
          calls := [] }))

/-- The calls a run makes, written without its counters: `processFile` called
on the files in order, each call on the disk and the history the call before
left. The result lists each file with what `processFile` returned for it,
then the disk and the history after the last call. -/
def processAll (sys : Sys) :
    List Path → Disk → ConversionHistory → List (Path × Bool) × Disk × ConversionHistory
  | [], disk, history => ([], disk, history)
  | filePath :: rest, disk, history =>
    ((filePath, (processFile sys filePath disk history).1) ::
        (processAll sys rest (processFile sys filePath disk history).2.1
          (processFile sys filePath disk history).2.2).1,
      (processAll sys rest (processFile sys filePath disk history).2.1
        (processFile sys filePath disk history).2.2).2)

/-! ## A concrete platform -/

/-- A matcher for glob patterns made of `*`, `?` and ordinary characters:
what `filepath.Match` computes for such patterns on names of ASCII characters
(`*` and `?` do not match the separator). -/
def globMatch : List Char → List Char → Bool
  | [], name => name.isEmpty
  | p :: ps, name =>
    if p = '*' then
      (List.range (name.length + 1)).any
        (fun k => (name.take k).all (fun c => c ≠ pathSeparator) && globMatch ps (name.drop k))
    else
      match name with
      | [] => false
      | c :: cs => (p = c || (p = '?' && c ≠ pathSeparator)) && globMatch ps cs

/-- The tree `root/a.txt`, `root/x/b.txt`, `root/x/y/c.txt`. -/
def depthTree : Tree :=
  .dir true [("a.txt", .file), ("x", .dir true [("b.txt", .file), ("y", .dir true [("c.txt", .file)])])]

/-- A directory `docs` holding `notes.md` and `report.txt`. -/
def reportTree : Tree :=
  .dir true [("notes.md", .file), ("report.txt", .file)]

/-- A platform with the working directory `/work`: paths are resolved by
their text, the directories `root` and `docs` hold `depthTree` and
`reportTree`, and a map is visited in the order of its keys. The JIS X 0208
table is left empty. -/
def exampleSys : Sys where
  abs := fun filePath => "/work/" ++ filePath
  resolve := fun filePath => "/work/" ++ filePath
  jis0208Decode := []
  fileMatch := fun pattern name => globMatch pattern.data name.data
  glob := fun pattern => some [pattern]
  treeAt := fun path =>
    if path = "root" then some depthTree
    else if path = "docs" then some reportTree
    else none
  userHomeDir := some "/home/user"
  rangeOrder := fun keys => ⟨keys, List.Perm.refl keys⟩

/-- A file that can be opened, read and written. -/
def plainFile (content : Bytes) : File :=
  { content := content, canOpen := true, canRead := true, writeFails := none }

/-- The disk of `exampleSys` holding one plain file, named by a path relative
to the working directory. -/
def diskWith (filePath : Path) (content : Bytes) : Disk :=
  fun id => if id = exampleSys.resolve filePath then some (plainFile content) else none

/-- An empty history. -/
def emptyHistory : ConversionHistory :=
  { converted := [], path := "/home/user/.local.shiftjis2utf8" }

/-- Valid UTF-8 of 4097 bytes in which the two bytes of `é` lie on either
side of offset 4096: 4095 letters `a`, then `0xC3 0xA9`. -/
def straddling : Bytes := List.replicate 4095 0x61 ++ [0xC3, 0xA9]

/-- A disk whose file `sjis.txt` holds the katakana `0xB1` and cannot be
rewritten: `os.WriteFile` fails and leaves the bytes as they are. -/
def lockedDisk : Disk :=
  fun id =>
    if id = exampleSys.resolve "sjis.txt" then
      some { content := [0xB1], canOpen := true, canRead := true, writeFails := some [0xB1] }
    else none

/-- A world whose disk holds the Shift-JIS file `sjis.txt` and whose history
file does not exist yet. -/
def sjisWorld : World :=
  { disk := diskWith "sjis.txt" [0xB1], historyFile := none, historyWritable := true }

/-- A world whose disk holds the Shift-JIS file `docs/report.txt` and whose
history file does not exist yet. -/
def reportWorld : World :=
  { disk := diskWith "docs/report.txt" [0xB1], historyFile := none, historyWritable := true }

/-- A history holding the one path `/a` followed by a carriage return. -/
def crHistory : ConversionHistory :=
  { converted := [String.mk ['/', 'a', Char.ofNat 13]], path := "/home/user/.local.shiftjis2utf8" }

/-- Shift-JIS of 4096 bytes whose UTF-8 form has a character across offset
4096: 4095 letters `a`, then the half-width katakana `0xB1`. -/
def katakanaTail : Bytes := List.replicate 4095 0x61 ++ [0xB1]

/-! ## Facts about `unicode/utf8` and the decoder -/

theorem utf8Valid_cons (pi : Nat) (rest : Bytes) :
    utf8Valid (pi :: rest) =
      if pi < runeSelf then utf8Valid rest
      else if first pi = xx then false
      else
        match rest with
        | [] => false
        | c1 :: r1 =>
          if c1 < (acceptRanges (first pi / 16)).1 || (acceptRanges (first pi / 16)).2 < c1 then
            false
          else if first pi % 8 = 2 then utf8Valid r1
          else
            match r1 with
            | [] => false
            | c2 :: r2 =>
              if c2 < locb || hicb < c2 then false
              else if first pi % 8 = 3 then utf8Valid r2
              else
                match r2 with
                | [] => false
                | c3 :: r3 =>
                  if c3 < locb || hicb < c3 then false
                  else utf8Valid r3 := by
  cases rest with
  | nil => rfl
  | cons c1 r1 =>
    cases r1 with
    | nil => rfl
    | cons c2 r2 =>
      cases r2 with
      | nil => rfl
      | cons c3 r3 => rfl


theorem first_two (b : Nat) (h1 : 0xC2 ≤ b) (h2 : b < 0xE0) : first b = 0x02 := by
  simp only [first, xx]
  split_ifs <;> omega

theorem first_three (b : Nat) (h1 : 0xE0 ≤ b) (h2 : b ≤ 0xEF) :
    first b = if b = 0xE0 then 0x13 else if b = 0xED then 0x23 else 0x03 := by
  simp only [first, xx]
  split_ifs <;> omega

theorem first_four (b : Nat) (h1 : 0xF0 ≤ b) (h2 : b ≤ 0xF4) :
    first b = if b = 0xF0 then 0x34 else if b = 0xF4 then 0x44 else 0x04 := by
  simp only [first, xx]
  split_ifs <;> omega

theorem utf8Valid_two (b c : Nat) (t : Bytes) (h1 : 0xC2 ≤ b) (h2 : b < 0xE0) (hc : IsCont c) :
    utf8Valid (b :: c :: t) = utf8Valid t := by
  rw [utf8Valid_cons, first_two b h1 h2]
  simp only [IsCont, locb, hicb] at hc
  have e1 : ¬ b < 0x80 := by omega
  have e2 : ¬ (decide (c < 0x80) || decide (0xBF < c)) = true := by simp; omega
  simp [e1, runeSelf, xx, acceptRanges, locb, hicb, e2]

theorem utf8Valid_three (b c1 c2 : Nat) (t : Bytes) (h1 : 0xE0 ≤ b) (h2 : b ≤ 0xEF)
    (hc1 : IsCont c1) (hc2 : IsCont c2) (hE0 : b = 0xE0 → 0xA0 ≤ c1) (hED : b = 0xED → c1 ≤ 0x9F) :
    utf8Valid (b :: c1 :: c2 :: t) = utf8Valid t := by
  rw [utf8Valid_cons, first_three b h1 h2]
  simp only [IsCont, locb, hicb] at hc1 hc2
  have e1 : ¬ b < 0x80 := by omega
  have e2 : ¬ (decide (c2 < 0x80) || decide (0xBF < c2)) = true := by simp; omega
  by_cases k1 : b = 0xE0
  · have := hE0 k1
    simp [e1, runeSelf, xx, acceptRanges, locb, hicb, e2, k1]
    omega
  · by_cases k2 : b = 0xED
    · have := hED k2
      simp [e1, runeSelf, xx, acceptRanges, locb, hicb, e2, k2]
      omega
    · simp [e1, runeSelf, xx, acceptRanges, locb, hicb, e2, k1, k2]
      omega

theorem utf8Valid_four (b c1 c2 c3 : Nat) (t : Bytes) (h1 : 0xF0 ≤ b) (h2 : b ≤ 0xF4)
    (hc1 : IsCont c1) (hc2 : IsCont c2) (hc3 : IsCont c3)
    (hF0 : b = 0xF0 → 0x90 ≤ c1) (hF4 : b = 0xF4 → c1 ≤ 0x8F) :
    utf8Valid (b :: c1 :: c2 :: c3 :: t) = utf8Valid t := by
  rw [utf8Valid_cons, first_four b h1 h2]
  simp only [IsCont, locb, hicb] at hc1 hc2 hc3
  have e1 : ¬ b < 0x80 := by omega
  have e2 : ¬ (decide (c2 < 0x80) || decide (0xBF < c2)) = true := by simp; omega
  have e3 : ¬ (decide (c3 < 0x80) || decide (0xBF < c3)) = true := by simp; omega
  by_cases k1 : b = 0xF0
  · have := hF0 k1
    simp [e1, runeSelf, xx, acceptRanges, locb, hicb, e2, e3, k1]
    omega
  · by_cases k2 : b = 0xF4
    · have := hF4 k2
      simp [e1, runeSelf, xx, acceptRanges, locb, hicb, e2, e3, k2]
      omega
    · simp [e1, runeSelf, xx, acceptRanges, locb, hicb, e2, e3, k1, k2]
      omega

theorem utf8Valid_encodeRune_append (r : Nat) (rest : Bytes) :
    utf8Valid (encodeRune r ++ rest) = utf8Valid rest := by
  unfold encodeRune
  split_ifs with h1 h2 h3 h4
  · have : r < runeSelf := by simp only [runeSelf]; omega
    rw [List.singleton_append, utf8Valid_cons, if_pos this]
  · exact utf8Valid_two _ _ _ (by omega) (by omega) (by simp only [IsCont, locb, hicb]; omega)
  · exact utf8Valid_three _ _ _ _ (by simp [runeError]) (by simp [runeError])
      (by simp [IsCont, locb, hicb, runeError]) (by simp [IsCont, locb, hicb, runeError])
      (by simp [runeError]) (by simp [runeError])
  · exact utf8Valid_three _ _ _ _ (by omega) (by omega)
      (by simp only [IsCont, locb, hicb]; omega) (by simp only [IsCont, locb, hicb]; omega)
      (by omega) (by omega)
  · exact utf8Valid_four _ _ _ _ _ (by omega) (by omega)
      (by simp only [IsCont, locb, hicb]; omega) (by simp only [IsCont, locb, hicb]; omega)
      (by simp only [IsCont, locb, hicb]; omega) (by omega) (by omega)

theorem shiftJISDecode_cons (tbl : List Nat) (c0 : Nat) (src : Bytes) :
    shiftJISDecode tbl (c0 :: src) =
    encodeRune (shiftJISStep tbl c0 src).1 ++
      (if (shiftJISStep tbl c0 src).2 = 1 then shiftJISDecode tbl src
       else
        match src with
        | [] => []
        | _ :: rest => shiftJISDecode tbl rest) := by
  cases src with
  | nil => rfl
  | cons c1 rest => rfl

theorem utf8Valid_shiftJISDecode_aux (tbl : List Nat) (n : Nat) :
    ∀ src : Bytes, src.length ≤ n → utf8Valid (shiftJISDecode tbl src) = true := by
  induction n with
  | zero =>
    intro src hl
    have : src = [] := List.length_eq_zero.mp (Nat.le_zero.mp hl)
    subst this
    rfl
  | succ n ih =>
    intro src hl
    cases src with
    | nil => rfl
    | cons c0 rest =>
      rw [shiftJISDecode_cons, utf8Valid_encodeRune_append]
      simp only [List.length_cons] at hl
      split_ifs
      · exact ih rest (by omega)
      · cases rest with
        | nil => rfl
        | cons c1 r1 =>
          simp only [List.length_cons] at hl
          exact ih r1 (by omega)

theorem utf8Valid_shiftJISDecode (tbl : List Nat) (src : Bytes) :
    utf8Valid (shiftJISDecode tbl src) = true :=
  utf8Valid_shiftJISDecode_aux tbl src.length src (Nat.le_refl _)

theorem utf8Valid_replicate_append (n : Nat) (xs : Bytes) :
    utf8Valid (List.replicate n 0x61 ++ xs) = utf8Valid xs := by
  induction n with
  | zero => rfl
  | succ n ih =>
    rw [List.replicate_succ, List.cons_append, utf8Valid_cons, if_pos (by decide), ih]

theorem shiftJISDecode_replicate_append (tbl : List Nat) (n : Nat) (xs : Bytes) :
    shiftJISDecode tbl (List.replicate n 0x61 ++ xs) =
      List.replicate n 0x61 ++ shiftJISDecode tbl xs := by
  induction n with
  | zero => rfl
  | succ n ih =>
    rw [List.replicate_succ, List.cons_append, shiftJISDecode_cons]
    have h : shiftJISStep tbl 0x61 (List.replicate n 0x61 ++ xs) = (0x61, 1) := by
      simp [shiftJISStep, runeSelf]
    rw [h]
    simp only [if_true, ih]
    rfl

theorem straddling_valid : utf8Valid straddling = true := by
  unfold straddling
  rw [utf8Valid_replicate_append]
  decide

theorem take_replicate_append (n : Nat) (a : Nat) (xs : Bytes) (k : Nat) :
    (List.replicate n a ++ xs).take (n + k) = List.replicate n a ++ xs.take k := by
  induction n with
  | zero => simp
  | succ n ih =>
    rw [List.replicate_succ, List.cons_append, Nat.add_right_comm, List.take_succ_cons, ih]
    rfl

theorem straddling_sample : utf8Valid (straddling.take 4096) = false := by
  have : straddling.take 4096 = List.replicate 4095 0x61 ++ [0xC3] :=
    take_replicate_append 4095 0x61 [0xC3, 0xA9] 1
  rw [this, utf8Valid_replicate_append]
  decide

theorem diskWith_self (filePath : Path) (content : Bytes) :
    diskWith filePath content (exampleSys.resolve filePath) = some (plainFile content) := by
  simp [diskWith]

/-! ## The encoding detector at the sample boundary (C2) -/

/-- Claim C2, the code at the failing input: the 4097 bytes of `straddling`
(4095 letters `a`, then the two bytes of `é`) are valid UTF-8, yet `isFileUTF8`
returns `(false, nil)` for a file holding them: the sample of 4096 bytes ends
after the first byte of `é`, and `utf8.Valid` counts the incomplete sequence
as malformed. -/
theorem isFileUTF8_boundary_example :
    utf8Valid straddling = true ∧
      straddling.length = 4097 ∧
      isFileUTF8 exampleSys (diskWith "big.txt" straddling) "big.txt" = .ok false := by
  refine ⟨straddling_valid, ?_, ?_⟩
  · unfold straddling
    rw [List.length_append, List.length_replicate]
    rfl
  · simp only [isFileUTF8, diskWith_self, plainFile]
    simp [straddling_sample]

/-! ## Malformed input (C3) -/

/-- Claim C3, the code at the failing input: for a file holding `a`, the byte
`0xFF` (no Shift-JIS sequence starts with it) and `b`, `convertFileToUTF8`
returns no error and the file then holds `a`, the three bytes of `U+FFFD`, and
`b`; `processFile` returns `true`. -/
theorem convertFileToUTF8_malformed_example :
    (convertFileToUTF8 exampleSys (diskWith "bad.txt" [0x61, 0xFF, 0x62]) "bad.txt").1 = none ∧
      Disk.bytes exampleSys
        (convertFileToUTF8 exampleSys (diskWith "bad.txt" [0x61, 0xFF, 0x62]) "bad.txt").2
        "bad.txt" = some [0x61, 0xEF, 0xBF, 0xBD, 0x62] ∧
      (processFile exampleSys "bad.txt" (diskWith "bad.txt" [0x61, 0xFF, 0x62]) emptyHistory).1
        = true := by
  decide

/-! ## Facts about the history and `processFile` -/

theorem isConverted_markConverted (h : ConversionHistory) (p q : Path) :
    (h.markConverted p).isConverted q = (h.isConverted q || decide (q = p)) := by
  unfold ConversionHistory.markConverted ConversionHistory.isConverted mapInsert
  by_cases hp : p ∈ h.converted
  · simp only [if_pos hp]
    by_cases hq : q = p
    · subst hq; simp [hp]
    · simp [hq]
  · simp only [if_neg hp]
    simp [List.mem_append]

theorem markConverted_of_isConverted (h : ConversionHistory) (p : Path)
    (hp : h.isConverted p = true) : h.markConverted p = h := by
  unfold ConversionHistory.isConverted at hp
  simp only [decide_eq_true_eq] at hp
  simp [ConversionHistory.markConverted, mapInsert, hp]

theorem Disk.set_self (disk : Disk) (id : FileId) (f : File) : disk.set id f id = some f := by
  simp [Disk.set]

/-- The result of `processFile` when the file exists and is not in the history. -/
theorem processFile_fresh (sys : Sys) (filePath : Path) (disk : Disk)
    (history : ConversionHistory) (f : File) (hf : disk (sys.resolve filePath) = some f)
    (hh : history.isConverted (sys.abs filePath) = false) :
    processFile sys filePath disk history =
      match isFileUTF8 sys disk filePath with
      | .error _ => (false, disk, history)
      | .ok true => (false, disk, history.markConverted (sys.abs filePath))
      | .ok false =>
        match convertFileToUTF8 sys disk filePath with
        | (some _, disk1) => (false, disk1, history)
        | (none, disk1) => (true, disk1, history.markConverted (sys.abs filePath)) := by
  simp only [processFile, hf, hh]
  rfl

theorem processFile_known (sys : Sys) (filePath : Path) (disk : Disk)
    (history : ConversionHistory) (hh : history.isConverted (sys.abs filePath) = true) :
    processFile sys filePath disk history = (false, disk, history) := by
  unfold processFile
  cases disk (sys.resolve filePath) with
  | none => rfl
  | some f => simp [hh]

theorem processFile_missing (sys : Sys) (filePath : Path) (disk : Disk)
    (history : ConversionHistory) (hf : disk (sys.resolve filePath) = none) :
    processFile sys filePath disk history = (false, disk, history) := by
  simp [processFile, hf]

/-- When `processFile` returns `true`, the file is still on disk and its
absolute path is in the history. -/
theorem processFile_true (sys : Sys) (filePath : Path) (disk : Disk)
    (history : ConversionHistory) (ht : (processFile sys filePath disk history).1 = true) :
    (processFile sys filePath disk history).2.2.isConverted (sys.abs filePath) = true ∧
      ∃ f, disk (sys.resolve filePath) = some f ∧
        isFileUTF8 sys disk filePath = .ok false ∧
        (convertFileToUTF8 sys disk filePath).1 = none ∧
        (processFile sys filePath disk history).2.1 = (convertFileToUTF8 sys disk filePath).2 ∧
        (processFile sys filePath disk history).2.2 = history.markConverted (sys.abs filePath) := by
  cases hf : disk (sys.resolve filePath) with
  | none => rw [processFile_missing sys filePath disk history hf] at ht; cases ht
  | some f =>
    cases hh : history.isConverted (sys.abs filePath) with
    | true => rw [processFile_known sys filePath disk history hh] at ht; cases ht
    | false =>
      rw [processFile_fresh sys filePath disk history f hf hh] at ht ⊢
      cases hd : isFileUTF8 sys disk filePath with
      | error e => rw [hd] at ht; cases ht
      | ok b =>
        rw [hd] at ht
        cases b with
        | true => cases ht
        | false =>
          simp only at ht ⊢
          rcases hc : convertFileToUTF8 sys disk filePath with ⟨e, disk1⟩
          rw [hc] at ht
          cases e with
          | some e => cases ht
          | none =>
            refine ⟨?_, f, ?_⟩
            · show (history.markConverted (sys.abs filePath)).isConverted (sys.abs filePath) = true
              rw [isConverted_markConverted]
              simp
            · simp

/-! ## Idempotence (C4) -/

/-- Claim C4 (idempotence): for every path, disk and history, if the absolute
form of the path is already in the history then `processFile` returns `false`
and leaves the disk and the history as they were; and if a call of
`processFile` returns `true`, a second call on the same path with the disk and
history the first one left returns `false` and changes neither, so two calls
in succession convert once. -/
theorem processFile_idempotent (sys : Sys) (filePath : Path) (disk : Disk)
    (history : ConversionHistory) :
    (history.isConverted (sys.abs filePath) = true →
        processFile sys filePath disk history = (false, disk, history)) ∧
      ((processFile sys filePath disk history).1 = true →
        processFile sys filePath (processFile sys filePath disk history).2.1
            (processFile sys filePath disk history).2.2 =
          (false, (processFile sys filePath disk history).2.1,
            (processFile sys filePath disk history).2.2)) := by
  refine ⟨processFile_known sys filePath disk history, fun ht => ?_⟩
  exact processFile_known sys filePath _ _ (processFile_true sys filePath disk history ht).1

/-- Claim C4, witness: a Shift-JIS file holding the half-width katakana `0xB1`
is converted by the first call and skipped by the second. -/
theorem processFile_idempotent_witness :
    (processFile exampleSys "sjis.txt" (diskWith "sjis.txt" [0xB1]) emptyHistory).1 = true ∧
      processFile exampleSys "sjis.txt"
          (processFile exampleSys "sjis.txt" (diskWith "sjis.txt" [0xB1]) emptyHistory).2.1
          (processFile exampleSys "sjis.txt" (diskWith "sjis.txt" [0xB1]) emptyHistory).2.2 =
        (false, (processFile exampleSys "sjis.txt" (diskWith "sjis.txt" [0xB1]) emptyHistory).2.1,
          (processFile exampleSys "sjis.txt" (diskWith "sjis.txt" [0xB1]) emptyHistory).2.2) :=
  ⟨by decide,
    (processFile_idempotent exampleSys "sjis.txt" (diskWith "sjis.txt" [0xB1]) emptyHistory).2
      (by decide)⟩

theorem isFileUTF8_plain (filePath : Path) (content : Bytes) :
    isFileUTF8 exampleSys (diskWith filePath content) filePath =
      .ok (utf8Valid (content.take 4096)) := by
  simp [isFileUTF8, diskWith_self, plainFile]

theorem convertFileToUTF8_plain (filePath : Path) (content : Bytes) :
    convertFileToUTF8 exampleSys (diskWith filePath content) filePath =
      (none, (diskWith filePath content).set (exampleSys.resolve filePath)
        (plainFile (shiftJISDecode [] content))) := by
  unfold convertFileToUTF8
  rw [diskWith_self]
  rfl

theorem processFile_plain_convert (filePath : Path) (content : Bytes)
    (h : utf8Valid (content.take 4096) = false) :
    processFile exampleSys filePath (diskWith filePath content) emptyHistory =
      (true, (diskWith filePath content).set (exampleSys.resolve filePath)
        (plainFile (shiftJISDecode [] content)),
        emptyHistory.markConverted (exampleSys.abs filePath)) := by
  rw [processFile_fresh exampleSys filePath _ _ _ (diskWith_self _ _) (by rfl),
    isFileUTF8_plain, h, convertFileToUTF8_plain]

/-! ## Canonical no-op (C5) -/

/-- Claim C5, the code at the failing input: the file `big.txt` holds the
valid UTF-8 of `straddling` and is not in the history, yet `processFile`
returns `true` (counted as converted) and the file is rewritten: the two bytes
of `é` have been decoded as two half-width katakana. -/
theorem processFile_canonical_example :
    utf8Valid straddling = true ∧
      (processFile exampleSys "big.txt" (diskWith "big.txt" straddling) emptyHistory).1 = true ∧
      Disk.bytes exampleSys
          (processFile exampleSys "big.txt" (diskWith "big.txt" straddling) emptyHistory).2.1
          "big.txt" =
        some (List.replicate 4095 0x61 ++ [0xEF, 0xBE, 0x83, 0xEF, 0xBD, 0xA9]) := by
  rw [processFile_plain_convert "big.txt" straddling straddling_sample]
  refine ⟨straddling_valid, rfl, ?_⟩
  simp only [Disk.bytes, Disk.set_self, Option.map, plainFile]
  unfold straddling
  rw [shiftJISDecode_replicate_append]
  rfl

theorem katakanaTail_decoded :
    shiftJISDecode [] katakanaTail = List.replicate 4095 0x61 ++ [0xEF, 0xBD, 0xB1] := by
  unfold katakanaTail
  rw [shiftJISDecode_replicate_append]
  rfl

/-! ## Conversion round trip (C8) -/

/-- Claim C8, the code at the failing input: `katakanaTail` is well-formed
Shift-JIS (4095 ASCII letters and one half-width katakana); `convertFileToUTF8`
succeeds on it and writes 4098 bytes that are valid UTF-8, and `isFileUTF8` on
the result returns `(false, nil)`: the three bytes of the katakana start at
offset 4095, so the sample ends inside the character. -/
theorem roundTrip_example :
    (convertFileToUTF8 exampleSys (diskWith "kana.txt" katakanaTail) "kana.txt").1 = none ∧
      Disk.bytes exampleSys
          (convertFileToUTF8 exampleSys (diskWith "kana.txt" katakanaTail) "kana.txt").2
          "kana.txt" =
        some (List.replicate 4095 0x61 ++ [0xEF, 0xBD, 0xB1]) ∧
      utf8Valid (List.replicate 4095 0x61 ++ [0xEF, 0xBD, 0xB1]) = true ∧
      isFileUTF8 exampleSys
        (convertFileToUTF8 exampleSys (diskWith "kana.txt" katakanaTail) "kana.txt").2
        "kana.txt" = .ok false := by
  rw [convertFileToUTF8_plain]
  refine ⟨rfl, ?_, ?_, ?_⟩
  · simp only [Disk.bytes, Disk.set_self, Option.map, plainFile, katakanaTail_decoded]
  · rw [utf8Valid_replicate_append]
    rfl
  · simp only [isFileUTF8, Disk.set_self, plainFile, katakanaTail_decoded]
    have : (List.replicate 4095 0x61 ++ [0xEF, 0xBD, 0xB1]).take 4096 =
        List.replicate 4095 0x61 ++ [0xEF] :=
      take_replicate_append 4095 0x61 [0xEF, 0xBD, 0xB1] 1
    rw [this, utf8Valid_replicate_append]
    rfl

/-- The bytes `convertFileToUTF8` writes when it succeeds are valid UTF-8 as a
whole, whatever the input and the table. -/
theorem convertFileToUTF8_writes_utf8 (sys : Sys) (disk : Disk) (filePath : Path)
    (hc : (convertFileToUTF8 sys disk filePath).1 = none) :
    ∃ out, Disk.bytes sys (convertFileToUTF8 sys disk filePath).2 filePath = some out ∧
      utf8Valid out = true := by
  unfold convertFileToUTF8 at hc ⊢
  cases hf : disk (sys.resolve filePath) with
  | none => rw [hf] at hc; cases hc
  | some f =>
    rw [hf] at hc
    simp only at hc ⊢
    cases ho : f.canOpen with
    | false => rw [ho] at hc; cases hc
    | true =>
      cases hr : f.canRead with
      | false => rw [ho, hr] at hc; cases hc
      | true =>
        cases hw : f.writeFails with
        | some left => rw [ho, hr, hw] at hc; cases hc
        | none =>
          refine ⟨shiftJISDecode sys.jis0208Decode f.content, ?_, utf8Valid_shiftJISDecode _ _⟩
          simp [Disk.bytes, Disk.set_self]

theorem isFileUTF8_ok_exists (sys : Sys) (disk : Disk) (filePath : Path) (b : Bool)
    (h : isFileUTF8 sys disk filePath = .ok b) : ∃ f, disk (sys.resolve filePath) = some f := by
  unfold isFileUTF8 at h
  cases hf : disk (sys.resolve filePath) with
  | none => rw [hf] at h; cases h
  | some f => exact ⟨f, rfl⟩

/-- The history `processFile` leaves, by the outcome of detection and
conversion. -/
theorem processFile_history_cases (sys : Sys) (filePath : Path) (disk : Disk)
    (history : ConversionHistory) :
    ((isFileUTF8 sys disk filePath = .ok true ∨
        (isFileUTF8 sys disk filePath = .ok false ∧
          (convertFileToUTF8 sys disk filePath).1 = none)) ∧
      (processFile sys filePath disk history).2.2 = history.markConverted (sys.abs filePath)) ∨
    (¬ (isFileUTF8 sys disk filePath = .ok true ∨
        (isFileUTF8 sys disk filePath = .ok false ∧
          (convertFileToUTF8 sys disk filePath).1 = none)) ∧
      (processFile sys filePath disk history).1 = false ∧
      (processFile sys filePath disk history).2.2 = history) := by
  cases hf : disk (sys.resolve filePath) with
  | none =>
    right
    rw [processFile_missing sys filePath disk history hf]
    refine ⟨?_, rfl, rfl⟩
    rintro (h | ⟨h, _⟩)
    · obtain ⟨f, hf2⟩ := isFileUTF8_ok_exists sys disk filePath _ h
      rw [hf] at hf2; cases hf2
    · obtain ⟨f, hf2⟩ := isFileUTF8_ok_exists sys disk filePath _ h
      rw [hf] at hf2; cases hf2
  | some f =>
    cases hh : history.isConverted (sys.abs filePath) with
    | true =>
      rw [processFile_known sys filePath disk history hh]
      by_cases hc : (isFileUTF8 sys disk filePath = .ok true ∨
        (isFileUTF8 sys disk filePath = .ok false ∧
          (convertFileToUTF8 sys disk filePath).1 = none))
      · left
        exact ⟨hc, (markConverted_of_isConverted history _ hh).symm⟩
      · right
        exact ⟨hc, rfl, rfl⟩
    | false =>
      rw [processFile_fresh sys filePath disk history f hf hh]
      cases hd : isFileUTF8 sys disk filePath with
      | error e =>
        right
        refine ⟨?_, rfl, rfl⟩
        rintro (h | ⟨h, _⟩) <;> cases h
      | ok b =>
        cases b with
        | true => left; exact ⟨Or.inl rfl, rfl⟩
        | false =>
          rcases hc : convertFileToUTF8 sys disk filePath with ⟨e, disk1⟩
          cases e with
          | some e =>
            right
            refine ⟨?_, rfl, rfl⟩
            rintro (h | ⟨_, h⟩) <;> cases h
          | none => left; exact ⟨Or.inr ⟨rfl, rfl⟩, rfl⟩

/-! ## History changes only on a completed step (C10) -/

/-- Claim C10: when the file is missing, when detection fails, and when
detection answers "not UTF-8" and conversion fails, `processFile` returns
`false` and the history is unchanged; when detection answers "UTF-8", and
when it answers "not UTF-8" and conversion succeeds, the history afterwards is
the history before with the absolute path marked; in every case a path is in
the history afterwards exactly when it was before or it is the absolute path
of the file and detection succeeded with either answer "UTF-8" or a
conversion without error. -/
theorem processFile_history (sys : Sys) (filePath : Path) (disk : Disk)
    (history : ConversionHistory) :
    (disk (sys.resolve filePath) = none →
      (processFile sys filePath disk history).1 = false ∧
        (processFile sys filePath disk history).2.2 = history) ∧
    (∀ e, isFileUTF8 sys disk filePath = .error e →
      (processFile sys filePath disk history).1 = false ∧
        (processFile sys filePath disk history).2.2 = history) ∧
    (∀ e, isFileUTF8 sys disk filePath = .ok false →
      (convertFileToUTF8 sys disk filePath).1 = some e →
      (processFile sys filePath disk history).1 = false ∧
        (processFile sys filePath disk history).2.2 = history) ∧
    (isFileUTF8 sys disk filePath = .ok true →
      (processFile sys filePath disk history).2.2 = history.markConverted (sys.abs filePath)) ∧
    (isFileUTF8 sys disk filePath = .ok false →
      (convertFileToUTF8 sys disk filePath).1 = none →
      (processFile sys filePath disk history).2.2 = history.markConverted (sys.abs filePath)) ∧
    (∀ q, (processFile sys filePath disk history).2.2.isConverted q = true ↔
      history.isConverted q = true ∨
        (q = sys.abs filePath ∧
          (isFileUTF8 sys disk filePath = .ok true ∨
            (isFileUTF8 sys disk filePath = .ok false ∧
              (convertFileToUTF8 sys disk filePath).1 = none)))) := by
  rcases processFile_history_cases sys filePath disk history with ⟨hc, hm⟩ | ⟨hc, hr, hm⟩
  · refine ⟨fun hf => ?_, fun e he => ?_, fun e hd he => ?_, fun _ => hm, fun _ _ => hm,
      fun q => ?_⟩
    · exfalso
      rcases hc with h | ⟨h, _⟩ <;>
        (obtain ⟨f, hf2⟩ := isFileUTF8_ok_exists sys disk filePath _ h
         rw [hf] at hf2; cases hf2)
    · exfalso
      rcases hc with h | ⟨h, _⟩ <;> (rw [he] at h; cases h)
    · exfalso
      rcases hc with h | ⟨_, h⟩
      · rw [hd] at h; cases h
      · rw [he] at h; cases h
    · rw [hm, isConverted_markConverted]
      simp only [Bool.or_eq_true, decide_eq_true_eq]
      constructor
      · rintro (h | h)
        · exact Or.inl h
        · exact Or.inr ⟨h, hc⟩
      · rintro (h | ⟨h, _⟩)
        · exact Or.inl h
        · exact Or.inr h
  · refine ⟨fun _ => ⟨hr, hm⟩, fun _ _ => ⟨hr, hm⟩, fun _ _ _ => ⟨hr, hm⟩,
      fun h => absurd (Or.inl h) hc, fun h1 h2 => absurd (Or.inr ⟨h1, h2⟩) hc, fun q => ?_⟩
    rw [hm]
    constructor
    · exact Or.inl
    · rintro (h | ⟨_, h⟩)
      · exact h
      · exact absurd h hc

/-- Claim C10, witness: a successful conversion marks the path, and a file
whose rewrite fails leaves the history as it was. -/
theorem processFile_history_witness :
    (processFile exampleSys "sjis.txt" (diskWith "sjis.txt" [0xB1]) emptyHistory).2.2 =
        emptyHistory.markConverted (exampleSys.abs "sjis.txt") ∧
      ((processFile exampleSys "sjis.txt" lockedDisk emptyHistory).1 = false ∧
        (processFile exampleSys "sjis.txt" lockedDisk emptyHistory).2.2 = emptyHistory) :=
  ⟨(processFile_history exampleSys "sjis.txt" (diskWith "sjis.txt" [0xB1]) emptyHistory).2.2.2.2.1
      (by rw [isFileUTF8_plain]; rfl) (by rw [convertFileToUTF8_plain]),
    (processFile_history exampleSys "sjis.txt" lockedDisk emptyHistory).2.2.1
      IOError.writeFailed (by rfl) (by decide)⟩

/-! ## Facts about the scanner -/

theorem utf8Len_append (a b : Text) : utf8Len (a ++ b) = utf8Len a + utf8Len b := by
  simp [utf8Len, List.map_append, List.sum_append]

/-- A whole line followed by a newline is delivered as one token. -/
theorem scanLines_line (p : Text) :
    ∀ (cur rest : Text), (Char.ofNat 10) ∉ p → utf8Len (cur ++ p) < maxScanTokenSize →
      scanLines (p ++ Char.ofNat 10 :: rest) cur =
        String.mk (dropCR (cur ++ p)) :: scanLines rest [] := by
  induction p with
  | nil =>
    intro cur rest _ _
    simp [scanLines]
  | cons c p ih =>
    intro cur rest hnl hlen
    have hc : c ≠ Char.ofNat 10 := fun h => hnl (by simp [h])
    have hp : (Char.ofNat 10) ∉ p := fun h => hnl (List.mem_cons_of_mem _ h)
    have hlen2 : utf8Len ((cur ++ [c]) ++ p) < maxScanTokenSize := by
      simpa [List.append_assoc] using hlen
    have hlen3 : ¬ maxScanTokenSize ≤ utf8Len (cur ++ [c]) := by
      rw [utf8Len_append] at hlen2
      omega
    rw [List.cons_append, scanLines, if_neg hc, if_neg hlen3, ih (cur ++ [c]) rest hp hlen2]
    simp [List.append_assoc]

theorem dropCR_of_not_cr (p : Text) (h : p.getLast? ≠ some (Char.ofNat 13)) : dropCR p = p := by
  simp [dropCR, h]

/-- The lines `save` writes are read back as the paths written. -/
theorem scanLines_saved (paths : List Path)
    (hnl : ∀ p ∈ paths, (Char.ofNat 10) ∉ p.data)
    (hcr : ∀ p ∈ paths, p.data.getLast? ≠ some (Char.ofNat 13))
    (hlen : ∀ p ∈ paths, utf8Len p.data < maxScanTokenSize) :
    scanLines ((paths.map (fun path => path.data ++ [Char.ofNat 10])).flatten) [] = paths := by
  induction paths with
  | nil => simp [scanLines]
  | cons p ps ih =>
    rw [List.map_cons, List.flatten_cons, List.append_assoc, List.singleton_append,
      scanLines_line p.data [] _ (hnl p (List.mem_cons_self _ _))
        (by simpa using hlen p (List.mem_cons_self _ _)),
      ih (fun q hq => hnl q (List.mem_cons_of_mem _ hq))
        (fun q hq => hcr q (List.mem_cons_of_mem _ hq))
        (fun q hq => hlen q (List.mem_cons_of_mem _ hq))]
    rw [List.nil_append, dropCR_of_not_cr _ (hcr p (List.mem_cons_self _ _))]

theorem mem_foldl_markConverted (lines : List String) :
    ∀ (h : ConversionHistory) (q : Path),
      q ∈ (lines.foldl (fun history line => history.markConverted line) h).converted ↔
        q ∈ h.converted ∨ q ∈ lines := by
  induction lines with
  | nil => intro h q; simp
  | cons l ls ih =>
    intro h q
    rw [List.foldl_cons, ih]
    simp only [ConversionHistory.markConverted, mapInsert]
    by_cases hl : l ∈ h.converted
    · simp only [if_pos hl, List.mem_cons]
      constructor
      · rintro (h1 | h1)
        · exact Or.inl h1
        · exact Or.inr (Or.inr h1)
      · rintro (h1 | h1 | h1)
        · exact Or.inl h1
        · exact Or.inl (h1 ▸ hl)
        · exact Or.inr h1
    · simp only [if_neg hl, List.mem_append, List.mem_singleton, List.mem_cons]
      tauto

/-! ## History persistence round trip (C9) -/

/-- Claim C9, amended: for every history whose paths contain no newline
character, do not end in a carriage return, and are shorter than
`bufio.MaxScanTokenSize` bytes, if `save` succeeds then `loadHistory` on the
same location returns a history with the same membership: `isConverted(p)` on
the reloaded history equals `isConverted(p)` on the saved one for every `p`. -/
theorem loadHistory_save (sys : Sys) (h : ConversionHistory) (canCreate : Bool) (text : Text)
    (hs : h.save sys canCreate = .ok text)
    (hnl : ∀ p ∈ h.converted, (Char.ofNat 10) ∉ p.data)
    (hcr : ∀ p ∈ h.converted, p.data.getLast? ≠ some (Char.ofNat 13))
    (hlen : ∀ p ∈ h.converted, utf8Len p.data < maxScanTokenSize) :
    ∀ p, (loadHistory h.path (some text)).isConverted p = h.isConverted p := by
  intro p
  unfold ConversionHistory.save at hs
  cases canCreate with
  | false => cases hs
  | true =>
    simp only [Bool.not_true, Bool.false_eq_true, if_false] at hs
    injection hs with hs
    have hperm := (sys.rangeOrder h.converted).2
    have hscan := scanLines_saved (sys.rangeOrder h.converted).1
      (fun q hq => hnl q (hperm.mem_iff.mp hq))
      (fun q hq => hcr q (hperm.mem_iff.mp hq))
      (fun q hq => hlen q (hperm.mem_iff.mp hq))
    unfold loadHistory
    simp only [← hs, hscan]
    unfold ConversionHistory.isConverted
    have := mem_foldl_markConverted (sys.rangeOrder h.converted).1
      { converted := [], path := h.path } p
    simp only [List.not_mem_nil, false_or] at this
    simp only [this, hperm.mem_iff]

/-- Claim C9, counterexample: the history holding the path `/a\r` (no
newline in it) is saved as the line `/a\r\n`; the history loaded from that
file holds `/a` instead, so `isConverted` of the saved path is `true` before
and `false` after the reload. -/
theorem loadHistory_save_counterexample :
    crHistory.save exampleSys true = .ok ['/', 'a', Char.ofNat 13, Char.ofNat 10] ∧
      (∀ p ∈ crHistory.converted, (Char.ofNat 10) ∉ p.data) ∧
      crHistory.isConverted (String.mk ['/', 'a', Char.ofNat 13]) = true ∧
      (loadHistory crHistory.path (some ['/', 'a', Char.ofNat 13, Char.ofNat 10])).isConverted
        (String.mk ['/', 'a', Char.ofNat 13]) = false ∧
      (loadHistory crHistory.path (some ['/', 'a', Char.ofNat 13, Char.ofNat 10])).converted =
        ["/a"] := by
  refine ⟨rfl, by decide, by decide, by decide, by decide⟩

/-- Claim C9, witness: a history of two paths, one with a blank in it, saved
and loaded again: a saved path is found, another path is not. -/
theorem loadHistory_save_witness :
    (loadHistory "/home/user/.local.shiftjis2utf8"
        (some ("/work/a.txt".data ++ [Char.ofNat 10] ++
          ("/work/b c.txt".data ++ [Char.ofNat 10])))).isConverted "/work/b c.txt" = true ∧
      (loadHistory "/home/user/.local.shiftjis2utf8"
        (some ("/work/a.txt".data ++ [Char.ofNat 10] ++
          ("/work/b c.txt".data ++ [Char.ofNat 10])))).isConverted "/work/c.txt" = false :=
  ⟨(loadHistory_save exampleSys
      (ConversionHistory.mk ["/work/a.txt", "/work/b c.txt"] "/home/user/.local.shiftjis2utf8")
      true _ rfl (by decide) (by decide) (by decide) "/work/b c.txt").trans (by decide),
    (loadHistory_save exampleSys
      (ConversionHistory.mk ["/work/a.txt", "/work/b c.txt"] "/home/user/.local.shiftjis2utf8")
      true _ rfl (by decide) (by decide) (by decide) "/work/c.txt").trans (by decide)⟩

/-! ## Facts about the loops of a run -/

theorem processAll_fst (sys : Sys) (files : List Path) :
    ∀ (disk : Disk) (history : ConversionHistory),
      (processAll sys files disk history).1.map Prod.fst = files := by
  induction files with
  | nil => intro disk history; rfl
  | cons f fs ih =>
    intro disk history
    simp only [processAll, List.map_cons]
    rw [ih]

theorem Loop.step_eq (sys : Sys) (s : Loop) (filePath : Path) :
    Loop.step sys s filePath =
      { disk := (processFile sys filePath s.disk s.history).2.1
        history := (processFile sys filePath s.disk s.history).2.2
        convertedCount := s.convertedCount +
          (if (processFile sys filePath s.disk s.history).1 then 1 else 0)
        skippedCount := s.skippedCount +
          (if (processFile sys filePath s.disk s.history).1 then 0 else 1)
        calls := s.calls ++ [(filePath, (processFile sys filePath s.disk s.history).1)] } := by
  unfold Loop.step
  rcases h : processFile sys filePath s.disk s.history with ⟨b, disk, history⟩
  cases b <;> rfl

/-- A loop over files makes the calls of `processAll` and counts them. -/
theorem Loop.foldl_step (sys : Sys) (files : List Path) :
    ∀ s : Loop,
      files.foldl (Loop.step sys) s =
        { disk := (processAll sys files s.disk s.history).2.1
          history := (processAll sys files s.disk s.history).2.2
          convertedCount := s.convertedCount +
            ((processAll sys files s.disk s.history).1.filter (fun c => c.2)).length
          skippedCount := s.skippedCount +
            ((processAll sys files s.disk s.history).1.filter (fun c => !c.2)).length
          calls := s.calls ++ (processAll sys files s.disk s.history).1 } := by
  induction files with
  | nil => intro s; simp [processAll]
  | cons f fs ih =>
    intro s
    rw [List.foldl_cons, ih, Loop.step_eq]
    simp only [processAll]
    cases hb : (processFile sys f s.disk s.history).1 <;>
      simp [List.filter_cons, Nat.add_assoc, Nat.add_comm]

theorem foldl_foldl_flatten (sys : Sys) (lists : List (List Path)) :
    ∀ s : Loop,
      lists.foldl (fun s files => files.foldl (Loop.step sys) s) s =
        lists.flatten.foldl (Loop.step sys) s := by
  induction lists with
  | nil => intro s; rfl
  | cons l ls ih =>
    intro s
    rw [List.foldl_cons, ih, List.flatten_cons, List.foldl_append]

theorem foldl_patterns (sys : Sys) (resolve : String → List Path) (patterns : List String)
    (s : Loop) :
    patterns.foldl (fun s pattern => (resolve pattern).foldl (Loop.step sys) s) s =
      (patterns.map resolve).flatten.foldl (Loop.step sys) s := by
  rw [← foldl_foldl_flatten, List.foldl_map]

theorem filter_length_add (calls : List (Path × Bool)) :
    (calls.filter (fun c => c.2)).length + (calls.filter (fun c => !c.2)).length =
      calls.length := by
  induction calls with
  | nil => rfl
  | cons c cs ih =>
    cases hc : c.2 <;> simp [List.filter_cons, hc] <;> omega

theorem mapInsert_nodup (keys : List Path) (key : Path) (h : keys.Nodup) :
    (mapInsert keys key).Nodup := by
  unfold mapInsert
  split_ifs with hk
  · exact h
  · exact List.Nodup.append h (List.nodup_singleton _) (by simpa using hk)

theorem mem_mapInsert (keys : List Path) (key q : Path) :
    q ∈ mapInsert keys key ↔ q ∈ keys ∨ q = key := by
  unfold mapInsert
  split_ifs with hk
  · constructor
    · exact Or.inl
    · rintro (h | h)
      · exact h
      · exact h ▸ hk
  · simp

theorem foldl_mapInsert (files : List Path) :
    ∀ keys : List Path, keys.Nodup →
      (files.foldl mapInsert keys).Nodup ∧
        ∀ q, q ∈ files.foldl mapInsert keys ↔ q ∈ keys ∨ q ∈ files := by
  induction files with
  | nil => intro keys h; simp [h]
  | cons f fs ih =>
    intro keys h
    obtain ⟨h1, h2⟩ := ih (mapInsert keys f) (mapInsert_nodup keys f h)
    refine ⟨h1, fun q => ?_⟩
    rw [List.foldl_cons, h2, mem_mapInsert]
    simp only [List.mem_cons]
    tauto

theorem uniqueFiles_spec (files : List Path) :
    (uniqueFiles files).Nodup ∧ ∀ q, q ∈ uniqueFiles files ↔ q ∈ files := by
  obtain ⟨h1, h2⟩ := foldl_mapInsert files [] List.nodup_nil
  exact ⟨h1, fun q => by rw [uniqueFiles, h2]; simp⟩

theorem foldl_append_flatten (f : String → List Path) (patterns : List String) :
    ∀ acc : List Path,
      patterns.foldl (fun files pattern => files ++ f pattern) acc =
        acc ++ (patterns.map f).flatten := by
  induction patterns with
  | nil => intro acc; simp
  | cons p ps ih => intro acc; rw [List.foldl_cons, ih]; simp

theorem targetFiles_eq (sys : Sys) (targetDir : String) (patterns : List String) (depth : Int) :
    targetFiles sys targetDir patterns depth =
      (patterns.map
        (fun pattern => findFilesByPattern sys targetDir (trimSpace pattern) depth)).flatten := by
  unfold targetFiles
  rw [foldl_append_flatten]
  rfl

theorem runFilesMode_eq (sys : Sys) (patterns : List String) (w : World)
    (history : ConversionHistory) (hh : getHistory sys w = some history) :
    runFilesMode sys patterns w =
      some (Loop.finish sys w
        ((patterns.map (fun pattern => resolveMatches sys (trimSpace pattern))).flatten.foldl
          (Loop.step sys) (Loop.mk w.disk history 0 0 []))) := by
  simp only [runFilesMode, hh]
  rw [foldl_patterns sys (fun pattern => resolveMatches sys (trimSpace pattern))]

theorem runDirMode_eq (sys : Sys) (targetDir : String) (patterns : List String) (depth : Int)
    (w : World) (history : ConversionHistory) (hh : getHistory sys w = some history) :
    runDirMode sys targetDir patterns depth w =
      some (Loop.finish sys w
        ((sys.rangeOrder (uniqueFiles (targetFiles sys targetDir patterns depth))).1.foldl
          (Loop.step sys) (Loop.mk w.disk history 0 0 []))) := by
  simp only [runDirMode, hh]

/-! ## Exact accounting (C6) -/

/-- Claim C6, counterexample: with the one pattern ` *.txt` (a leading blank,
as `--patterns "*.md, *.txt"` yields), `runDirMode` on the directory `docs`
counts one candidate, while `findFilesByPattern` called with the pattern as
supplied returns no path: the run trims the pattern first. -/
theorem run_counts_counterexample :
    (runDirMode exampleSys "docs" [" *.txt"] 1 reportWorld).map
        (fun r => r.convertedCount + r.skippedCount) = some 1 ∧
      ([" *.txt"].map (fun pattern => findFilesByPattern exampleSys "docs" pattern 1)).flatten
        = [] := by
  decide

/-- Claim C6, amended (exact accounting): a run that obtains its history
returns a result whose calls of `processFile` are those of `processAll` on
the candidates, one call per candidate in order, each on the disk and history
the call before left; `convertedCount` is the number of those calls that
returned `true`, `skippedCount` the number that returned `false`, and their
sum is the number of candidates. Every pattern is trimmed of surrounding white
space before it is resolved. In `runFilesMode` the candidates are the resolved
matches of the trimmed patterns, so the sum is the sum over the patterns of
the number of resolved matches, which is one (the pattern itself) when the glob
expansion fails or is empty; in `runDirMode` the sum is the number of distinct
paths `findFilesByPattern` returns over the trimmed patterns. -/
theorem run_counts (sys : Sys) (patterns : List String) (w : World)
    (history : ConversionHistory) (hh : getHistory sys w = some history) :
    (∃ r, runFilesMode sys patterns w = some r ∧
      r.calls = (processAll sys
        (patterns.map (fun pattern => resolveMatches sys (trimSpace pattern))).flatten
        w.disk history).1 ∧
      r.convertedCount = (r.calls.filter (fun c => c.2)).length ∧
      r.skippedCount = (r.calls.filter (fun c => !c.2)).length ∧
      r.convertedCount + r.skippedCount =
        (patterns.map (fun pattern => (resolveMatches sys (trimSpace pattern)).length)).sum) ∧
    (∀ pattern, (sys.glob pattern = none ∨ sys.glob pattern = some []) →
      resolveMatches sys pattern = [pattern]) ∧
    (∀ (targetDir : String) (depth : Int), ∃ r,
      runDirMode sys targetDir patterns depth w = some r ∧
      r.calls = (processAll sys
        (sys.rangeOrder (uniqueFiles (targetFiles sys targetDir patterns depth))).1
        w.disk history).1 ∧
      r.convertedCount = (r.calls.filter (fun c => c.2)).length ∧
      r.skippedCount = (r.calls.filter (fun c => !c.2)).length ∧
      r.convertedCount + r.skippedCount =
        ((patterns.map (fun pattern =>
          findFilesByPattern sys targetDir (trimSpace pattern) depth)).flatten.toFinset).card) := by
  refine ⟨?_, ?_, ?_⟩
  · refine ⟨_, runFilesMode_eq sys patterns w history hh, ?_⟩
    rw [Loop.foldl_step]
    simp only [Loop.finish, List.nil_append, Nat.zero_add]
    refine ⟨trivial, trivial, trivial, ?_⟩
    rw [filter_length_add, ← List.length_map (f := Prod.fst), processAll_fst, List.length_flatten,
      List.map_map]
    rfl
  · rintro pattern (h | h) <;> simp [resolveMatches, h]
  · intro targetDir depth
    refine ⟨_, runDirMode_eq sys targetDir patterns depth w history hh, ?_⟩
    rw [Loop.foldl_step]
    simp only [Loop.finish, List.nil_append, Nat.zero_add]
    refine ⟨trivial, trivial, trivial, ?_⟩
    rw [filter_length_add, ← List.length_map (f := Prod.fst), processAll_fst,
      (sys.rangeOrder _).2.length_eq]
    obtain ⟨hn, hm⟩ := uniqueFiles_spec (targetFiles sys targetDir patterns depth)
    rw [← List.toFinset_card_of_nodup hn, ← targetFiles_eq]
    congr 1
    ext q
    simp [hm]

/-- Claim C6, witness: two patterns, one naming a Shift-JIS file and one (with
a leading blank) naming nothing: one call returns `true`, one `false`, and the
counts are 1 and 1. -/
theorem run_counts_witness :
    (runFilesMode exampleSys ["sjis.txt", " missing.txt"] sjisWorld).map
        (fun r => (r.calls, r.convertedCount, r.skippedCount)) =
      some ([("sjis.txt", true), ("missing.txt", false)], 1, 1) ∧
    ∃ r, runFilesMode exampleSys ["sjis.txt", " missing.txt"] sjisWorld = some r ∧
      r.convertedCount + r.skippedCount = 2 :=
  ⟨by decide,
    match run_counts exampleSys ["sjis.txt", " missing.txt"] sjisWorld emptyHistory rfl with
    | ⟨⟨r, h1, _, _, _, h5⟩, _⟩ => ⟨r, h1, h5.trans (by decide)⟩⟩

/-! ## Pattern union with de-duplication (C7) -/

/-- Claim C7, counterexample: with the one pattern ` *.txt` (a leading
blank), `runDirMode` on the directory `docs` passes `docs/report.txt` to
`processFile`, while `findFilesByPattern` called with the pattern as supplied
returns no path: the set of paths processed is not the union of
`findFilesByPattern(dir, p, depth)` over the patterns `p` as supplied. -/
theorem runDirMode_union_counterexample :
    (runDirMode exampleSys "docs" [" *.txt"] 1 reportWorld).map (fun r => r.calls) =
        some [("docs/report.txt", true)] ∧
      findFilesByPattern exampleSys "docs" " *.txt" 1 = [] := by
  decide

/-- Claim C7, amended (pattern union, de-duplicated): in a run of `runDirMode`
that obtains its history, the paths passed to `processFile` are pairwise
distinct, and a path is passed exactly when `findFilesByPattern` returns it
for one of the patterns trimmed of surrounding white space; the calls recorded
are those of `processAll` on these paths (each path with what `processFile`
returned for it), and the disk the run leaves is the one those calls leave. -/
theorem runDirMode_union (sys : Sys) (targetDir : String) (patterns : List String) (depth : Int)
    (w : World) (history : ConversionHistory) (hh : getHistory sys w = some history) :
    ∃ r, runDirMode sys targetDir patterns depth w = some r ∧
      (r.calls.map Prod.fst).Nodup ∧
      (∀ filePath, filePath ∈ r.calls.map Prod.fst ↔
        ∃ pattern ∈ patterns,
          filePath ∈ findFilesByPattern sys targetDir (trimSpace pattern) depth) ∧
      r.calls = (processAll sys (r.calls.map Prod.fst) w.disk history).1 ∧
      r.world.disk = (processAll sys (r.calls.map Prod.fst) w.disk history).2.1 := by
  refine ⟨_, runDirMode_eq sys targetDir patterns depth w history hh, ?_⟩
  rw [Loop.foldl_step]
  simp only [Loop.finish, List.nil_append, processAll_fst]
  obtain ⟨hn, hm⟩ := uniqueFiles_spec (targetFiles sys targetDir patterns depth)
  refine ⟨(sys.rangeOrder _).2.nodup_iff.mpr hn, fun filePath => ?_, trivial, trivial⟩
  rw [(sys.rangeOrder _).2.mem_iff, hm, targetFiles_eq]
  simp [List.mem_flatten]

/-- Claim C7, witness: the directory `docs` holds `report.txt`, which matches
both `*.txt` and `report.*`; `processFile` is called on it once and it is
converted once. -/
theorem runDirMode_union_witness :
    (runDirMode exampleSys "docs" ["*.txt", "report.*"] 1 reportWorld).map
        (fun r => (r.calls, r.convertedCount, r.skippedCount)) =
      some ([("docs/report.txt", true)], 1, 0) ∧
    ∃ r, runDirMode exampleSys "docs" ["*.txt", "report.*"] 1 reportWorld = some r ∧
      (r.calls.map Prod.fst).Nodup ∧
      (∀ filePath, filePath ∈ r.calls.map Prod.fst ↔
        ∃ pattern ∈ ["*.txt", "report.*"],
          filePath ∈ findFilesByPattern exampleSys "docs" (trimSpace pattern) 1) ∧
      r.calls = (processAll exampleSys (r.calls.map Prod.fst) reportWorld.disk emptyHistory).1 ∧
      r.world.disk =
        (processAll exampleSys (r.calls.map Prod.fst) reportWorld.disk emptyHistory).2.1 :=
  ⟨by decide,
    runDirMode_union exampleSys "docs" ["*.txt", "report.*"] 1 reportWorld emptyHistory rfl⟩

/-! ## Depth limiting (C1) -/

/-- Claim C1, the code at the failing input: on the tree `root/a.txt`,
`root/x/b.txt`, `root/x/y/c.txt` with pattern `*.txt`, a search with depth 1
returns `a.txt` and also `b.txt`, whose path relative to the root holds one
separator (not fewer than the depth); depth 0 returns nothing and depths 2 and
3 return all three files. The callback prunes a directory whose separator
count reaches the depth and lets a file with the same count through. -/
theorem findFilesByPattern_depth_example :
    findFilesByPattern exampleSys "root" "*.txt" 1 = ["root/a.txt", "root/x/b.txt"] ∧
      stringsCount (filepathRel "root" "root/x/b.txt") pathSeparator = 1 ∧
      findFilesByPattern exampleSys "root" "*.txt" 0 = [] ∧
      findFilesByPattern exampleSys "root" "*.txt" 2 =
        ["root/a.txt", "root/x/b.txt", "root/x/y/c.txt"] ∧
      findFilesByPattern exampleSys "root" "*.txt" 3 =
        ["root/a.txt", "root/x/b.txt", "root/x/y/c.txt"] := by
  decide

end ShiftJIS2UTF8
